import Mathlib

/-!
# Galamsay analysis pipeline — shallow embedding

A shallow embedding of the data-cleaning and aggregation core of
`analyze_data.py` (class `GalamsayAnalyzer` and the persistence entry point
`save_analysis_to_database`), together with theorems settling the stated
properties of the pipeline.

Modelling conventions:
* Python `int` is `ℤ`; the float average is idealised as `ℚ`.
* A raw CSV row is an association list `String × PyVal`, where `PyVal` covers
  the values `csv.DictReader` can put in a row: strings, `None` (the restval
  for missing columns), and other non-string values (modelled by integers).
* A Python `dict` used for grouping is an insertion-ordered association list.
* An exception escaping a block is an `Except.error`.
-/

namespace Galamsay

/-- A Python value in a raw CSV row: a string, `None`, or a non-string value
(modelled by an integer). -/
inductive PyVal where
  | str (s : String)
  | pynone
  | int (n : ℤ)
deriving DecidableEq, Repr

/-- A raw row: mapping from column name to value. -/
abbrev RawRow := List (String × PyVal)

/-- `row.get(key, default)`: value of the first binding of `key`, or the
default when the key is absent. -/
def rowGet (row : RawRow) (key : String) (dflt : PyVal) : PyVal :=
  match row.find? (fun p => p.1 == key) with
  | some p => p.2
  | none => dflt

/-- `str.strip()` on the underlying character list: drop leading whitespace,
then trailing whitespace. -/
def stripChars (cs : List Char) : List Char :=
  (cs.dropWhile Char.isWhitespace).rdropWhile Char.isWhitespace

/-- `str.strip()` on strings. -/
def pyStripStr (s : String) : String := ⟨stripChars s.data⟩

/-- `.strip()` on a Python value: succeeds on strings, raises
`AttributeError` on `None` or any other non-string value. -/
def pyStrip : PyVal → Except String String
  | .str s => .ok (pyStripStr s)
  | .pynone => .error "AttributeError: NoneType has no strip"
  | .int _ => .error "AttributeError: int has no strip"

/-- `str.lower()`: lower-case every character. -/
def pyLower (s : String) : String := ⟨s.data.map Char.toLower⟩

/-- Decimal value of a digit list. -/
def digitsToNat (cs : List Char) : ℕ :=
  cs.foldl (fun a c => a * 10 + (c.toNat - 48)) 0

/-- Python `int(s)`: optional surrounding whitespace, optional sign, then a
non-empty run of decimal digits; `none` models the `ValueError` raised
otherwise. -/
def pyInt (s : String) : Option ℤ :=
  match stripChars s.data with
  | [] => none
  | c :: rest =>
    if c = '-' then
      if rest ≠ [] ∧ rest.all Char.isDigit then some (-(digitsToNat rest : ℤ)) else none
    else if c = '+' then
      if rest ≠ [] ∧ rest.all Char.isDigit then some ((digitsToNat rest : ℤ)) else none
    else
      if (c :: rest) ≠ [] ∧ (c :: rest).all Char.isDigit then
        some ((digitsToNat (c :: rest) : ℤ))
      else none

/-- A cleaned record, as built by `clean_row`. -/
structure CleanRecord where
  city : String
  region : String
  sites : ℤ
deriving DecidableEq, Repr

/-- The validation chain of `clean_row`, applied to the three stripped
fields: first failure wins, a parsed count above 200 is accepted with a
warning.  The result pairs the accepted record (or `none` on rejection) with
the entries appended to `self.errors`. -/
def validateRow (city region sitesStr : String) : Option CleanRecord × List String :=
  if city = "" ∨ pyLower city = "unknown city" then
    (none, ["Invalid city: " ++ city])
  else if region = "" ∨ pyLower region = "invalid region" then
    (none, ["Invalid region for city " ++ city ++ ": " ++ region])
  else
    match pyInt sitesStr with
    | none =>
      (none, ["Invalid sites count for " ++ city ++ ": " ++ sitesStr ++ " is not a number"])
    | some sites =>
      if sites < 0 then
        (none, ["Negative sites count for " ++ city ++ ": " ++ toString sites])
      else if sites > 200 then
        (some ⟨city, region, sites⟩,
         ["WARNING: Possible outlier for " ++ city ++ ": " ++ toString sites ++ " sites"])
      else
        (some ⟨city, region, sites⟩, [])

/-- The body of the outer `try` of `GalamsayAnalyzer.clean_row`: the three
field extractions (which can raise on non-string values) followed by the
validation chain. -/
def clean_row_body (row : RawRow) : Except String (Option CleanRecord × List String) :=
  match pyStrip (rowGet row "City" (.str "")) with
  | .error e => .error e
  | .ok city =>
  match pyStrip (rowGet row "Region" (.str "")) with
  | .error e => .error e
  | .ok region =>
  match pyStrip (rowGet row "Number_of_Galamsay_Sites" (.str "")) with
  | .error e => .error e
  | .ok sitesStr => .ok (validateRow city region sitesStr)

/-- `GalamsayAnalyzer.clean_row`: runs the body and catches any exception,
logging it and rejecting the row. -/
def clean_row (row : RawRow) : Option CleanRecord × List String :=
  match clean_row_body row with
  | .ok r => r
  | .error e => (none, ["Error cleaning row: " ++ e])

/-- `GalamsayAnalyzer.clean_data`'s loop: append each accepted record, in
input order. -/
def clean_data (raw : List RawRow) : List CleanRecord :=
  raw.foldl
    (fun acc row =>
      match (clean_row row).1 with
      | some rec => acc ++ [rec]
      | none => acc)
    []

/-- `region_totals[region] = region_totals.get(region, 0) + row['sites']` on
an insertion-ordered association list (a Python dict): an existing key keeps
its position, a new key is appended at the end. -/
def insertAdd (m : List (String × ℤ)) (k : String) (v : ℤ) : List (String × ℤ) :=
  match m with
  | [] => [(k, v)]
  | (k', v') :: rest =>
    if k' = k then (k', v' + v) :: rest else (k', v') :: insertAdd rest k v

/-- The grouping loop of `analyze`: fold the cleaned records into the
region → total mapping. -/
def regionTotals (records : List CleanRecord) : List (String × ℤ) :=
  records.foldl (fun m r => insertAdd m r.region r.sites) []

/-- One step of Python `max`: replace the candidate only on a strictly
greater value, so among ties the earliest entry wins. -/
def pyMaxStep (best y : String × ℤ) : String × ℤ :=
  if y.2 > best.2 then y else best

/-- Python `max(d, key=d.get)` over an insertion-ordered mapping: start from
the first entry and fold with `pyMaxStep`.  `none` models the exception
raised on an empty mapping. -/
def pyMax : List (String × ℤ) → Option (String × ℤ)
  | [] => none
  | x :: xs => some (xs.foldl pyMaxStep x)

/-- The dictionary returned by `GalamsayAnalyzer.analyze`. -/
structure AnalysisResult where
  total_sites : ℤ
  region_with_highest : String
  highest_count : ℤ
  avg_per_region : ℚ
  cities_exceeding_threshold : List CleanRecord
  region_totals : List (String × ℤ)
  cleaned_data : List CleanRecord
deriving DecidableEq, Repr

/-- `GalamsayAnalyzer.analyze`.  `none` models the falsy `{}` returned when
there is no cleaned data.  The inner `none` branch mirrors the (unreachable)
exception `max` would raise on an empty mapping. -/
def analyze (cleaned : List CleanRecord) : Option AnalysisResult :=
  if cleaned = [] then none
  else
    let total_sites := (cleaned.map (·.sites)).sum
    let rt := regionTotals cleaned
    match pyMax rt with
    | none => none
    | some top =>
      some
        { total_sites := total_sites
          region_with_highest := top.1
          highest_count := top.2
          avg_per_region := if rt = [] then 0 else (total_sites : ℚ) / (rt.length : ℚ)
          cities_exceeding_threshold := cleaned.filter (fun r => r.sites > 10)
          region_totals := rt
          cleaned_data := cleaned }

/-- Round to the nearest integer, half to even (Python `round`'s policy). -/
def roundHalfEven (x : ℚ) : ℤ :=
  if x - (Rat.floor x : ℚ) < 1/2 then Rat.floor x
  else if (1 : ℚ)/2 < x - (Rat.floor x : ℚ) then Rat.floor x + 1
  else if Rat.floor x % 2 = 0 then Rat.floor x else Rat.floor x + 1

/-- Python `round(q, 2)` idealised over `ℚ`: round half to even at two
decimal places. -/
def pyRound2 (q : ℚ) : ℚ :=
  (roundHalfEven (q * 100) : ℚ) / 100

/-- The `AnalysisRun` row persisted by `save_analysis_to_database` (the
storage engine itself is abstracted away): the average is rounded to two
decimal places on the way in. -/
structure AnalysisRunRow where
  total_galamsay_sites : ℤ
  region_with_highest_sites : String
  highest_sites_count : ℤ
  average_sites_per_region : ℚ
  status : String
deriving DecidableEq, Repr

/-- `save_analysis_to_database`, reduced to the row it stores. -/
def save_analysis_to_database (res : AnalysisResult) : AnalysisRunRow :=
  { total_galamsay_sites := res.total_sites
    region_with_highest_sites := res.region_with_highest
    highest_sites_count := res.highest_count
    average_sites_per_region := pyRound2 res.avg_per_region
    status := "success" }

/-- `main`'s control flow after a successful CSV load of `raw`: clean,
analyze, persist; a falsy intermediate result returns before persistence. -/
def main_flow (raw : List RawRow) : Option AnalysisRunRow :=
  if raw = [] then none
  else
    match analyze (clean_data raw) with
    | none => none
    | some res => some (save_analysis_to_database res)

/-! ### Derived notions used in the statements -/

/-- The keys of an association list, in order. -/
def keys (m : List (String × ℤ)) : List String := m.map Prod.fst

/-- `m.get(r, 0)`: the total stored under region `r`, defaulting to `0`. -/
def getTotal (m : List (String × ℤ)) (r : String) : ℤ :=
  ((m.find? (fun p => p.1 == r)).map Prod.snd).getD 0

/-- Sum of the site counts of the records whose region is exactly `r`. -/
def regionSum (records : List CleanRecord) (r : String) : ℤ :=
  ((records.filter (fun rec => rec.region == r)).map (·.sites)).sum

/-- The distinct region names of `records`, in order of first occurrence. -/
def firstRegions (records : List CleanRecord) : List String :=
  records.foldl (fun ks rec => if rec.region ∈ ks then ks else ks ++ [rec.region]) []

/-- The invariant every record surviving `clean_row` satisfies: both names are
trimmed, non-empty and distinct from their rejection sentinels, and the site
count is non-negative. -/
def CleanInvariant (rec : CleanRecord) : Prop :=
  pyStripStr rec.city = rec.city ∧ rec.city ≠ "" ∧ pyLower rec.city ≠ "unknown city" ∧
  pyStripStr rec.region = rec.region ∧ rec.region ≠ "" ∧
  pyLower rec.region ≠ "invalid region" ∧ 0 ≤ rec.sites

/-! ### Concrete inputs used by counterexamples and witnesses -/

/-- A raw row with the given city, region and site-count strings. -/
def mkRow (c r s : String) : RawRow :=
  [("City", .str c), ("Region", .str r), ("Number_of_Galamsay_Sites", .str s)]

/-- The worked scenario of the specification. -/
def demo_records : List CleanRecord :=
  [⟨"Kumasi", "Ashanti", 25⟩, ⟨"Accra", "Greater Accra", 20⟩,
   ⟨"Takoradi", "Western", 18⟩, ⟨"Tamale", "Northern", 7⟩,
   ⟨"Bolgatanga", "Upper East", 5⟩, ⟨"Obuasi", "Ashanti", 10⟩]

/-- Two records above the threshold arriving in ascending order. -/
def c1_records : List CleanRecord :=
  [⟨"Tarkwa", "Western", 11⟩, ⟨"Obuasi", "Ashanti", 25⟩]

/-- A raw input whose only row is rejected, so the cleaned set is empty. -/
def c2_raw : List RawRow := [mkRow "Unknown City" "Greater Accra" "3"]

/-- Two regions tied at the maximum total. -/
def c3_records : List CleanRecord :=
  [⟨"Kumasi", "Ashanti", 5⟩, ⟨"Accra", "Greater Accra", 5⟩]

/-- Records whose regions differ only in letter case. -/
def c4_records : List CleanRecord :=
  [⟨"Obuasi", "Ashanti", 7⟩, ⟨"Kumasi", "ASHANTI", 2⟩, ⟨"Tema", "Ashanti", 1⟩]

/-- A valid row with a negative count. -/
def c7_row_neg : RawRow := mkRow "Accra" "Greater Accra" "-3"

/-- A valid row with a zero count. -/
def c7_row_zero : RawRow := mkRow "Accra" "Greater Accra" "0"

/-- A valid row with an outlier count. -/
def c7_row_outlier : RawRow := mkRow "Accra" "Greater Accra" "1000"

/-- A row whose `City` value is `None`, so `.strip()` raises. -/
def c9_row : RawRow := [("City", PyVal.pynone)]

/-- Ten sites spread over three regions: the average `10/3` does not survive
rounding to two decimal places. -/
def c10_records : List CleanRecord :=
  [⟨"Kumasi", "Ashanti", 4⟩, ⟨"Accra", "Greater Accra", 3⟩, ⟨"Takoradi", "Western", 3⟩]

/-- The worked scenario of the specification, as raw rows. -/
def demo_raw : List RawRow :=
  [mkRow "Kumasi" "Ashanti" "25", mkRow "Accra" "Greater Accra" "20",
   mkRow "Takoradi" "Western" "18", mkRow "Tamale" "Northern" "7",
   mkRow "Bolgatanga" "Upper East" "5", mkRow "Obuasi" "Ashanti" "10"]

/-- The analysis result of `demo_records` (the average is kept as the
unevaluated quotient the code produces). -/
def demo_result : AnalysisResult :=
  { total_sites := 85
    region_with_highest := "Ashanti"
    highest_count := 35
    avg_per_region := ((85 : ℤ) : ℚ) / ((5 : ℕ) : ℚ)
    cities_exceeding_threshold :=
      [⟨"Kumasi", "Ashanti", 25⟩, ⟨"Accra", "Greater Accra", 20⟩, ⟨"Takoradi", "Western", 18⟩]
    region_totals :=
      [("Ashanti", 35), ("Greater Accra", 20), ("Western", 18), ("Northern", 7),
       ("Upper East", 5)]
    cleaned_data := demo_records }

/-- The analysis result of `c1_records`. -/
def c1_result : AnalysisResult :=
  { total_sites := 36
    region_with_highest := "Ashanti"
    highest_count := 25
    avg_per_region := ((36 : ℤ) : ℚ) / ((2 : ℕ) : ℚ)
    cities_exceeding_threshold := [⟨"Tarkwa", "Western", 11⟩, ⟨"Obuasi", "Ashanti", 25⟩]
    region_totals := [("Western", 11), ("Ashanti", 25)]
    cleaned_data := c1_records }

/-- The analysis result of `c3_records`: the tie at 5 resolves to the region
inserted first. -/
def c3_result : AnalysisResult :=
  { total_sites := 10
    region_with_highest := "Ashanti"
    highest_count := 5
    avg_per_region := ((10 : ℤ) : ℚ) / ((2 : ℕ) : ℚ)
    cities_exceeding_threshold := []
    region_totals := [("Ashanti", 5), ("Greater Accra", 5)]
    cleaned_data := c3_records }

/-- The analysis result of `c10_records`. -/
def c10_result : AnalysisResult :=
  { total_sites := 10
    region_with_highest := "Ashanti"
    highest_count := 4
    avg_per_region := ((10 : ℤ) : ℚ) / ((3 : ℕ) : ℚ)
    cities_exceeding_threshold := []
    region_totals := [("Ashanti", 4), ("Greater Accra", 3), ("Western", 3)]
    cleaned_data := c10_records }

/-! ### Stripping lemmas -/

theorem stripChars_idempotent (cs : List Char) :
    stripChars (stripChars cs) = stripChars cs := by
  have hA : (stripChars cs).dropWhile Char.isWhitespace = stripChars cs := by
    cases hxe : stripChars cs with
    | nil => rfl
    | cons a t =>
      have hpref : stripChars cs <+: cs.dropWhile Char.isWhitespace :=
        List.rdropWhile_prefix _ _
      rw [hxe] at hpref
      obtain ⟨r, hr⟩ := hpref
      have hd1ne : cs.dropWhile Char.isWhitespace ≠ [] := by
        rw [← hr]; simp
      have h1 := List.head_dropWhile_not Char.isWhitespace cs hd1ne
      have h2 : (cs.dropWhile Char.isWhitespace).head? = some a := by
        rw [← hr]; rfl
      rw [List.head?_eq_head hd1ne] at h2
      have ha : Char.isWhitespace a = false := by
        injection h2 with h2'; rw [← h2']; exact h1
      simp [List.dropWhile_cons, ha]
  show ((stripChars cs).dropWhile Char.isWhitespace).rdropWhile Char.isWhitespace
      = stripChars cs
  rw [hA]
  show ((cs.dropWhile Char.isWhitespace).rdropWhile
      Char.isWhitespace).rdropWhile Char.isWhitespace = stripChars cs
  rw [List.rdropWhile_idempotent]
  rfl

theorem pyStripStr_idempotent (s : String) : pyStripStr (pyStripStr s) = pyStripStr s := by
  show (⟨stripChars (⟨stripChars s.data⟩ : String).data⟩ : String) = _
  simp only [stripChars_idempotent]
  rfl

/-! ### `clean_row` lemmas -/

theorem clean_row_of_strips {row : RawRow} {city region sitesStr : String}
    (hc : pyStrip (rowGet row "City" (.str "")) = .ok city)
    (hr : pyStrip (rowGet row "Region" (.str "")) = .ok region)
    (hs : pyStrip (rowGet row "Number_of_Galamsay_Sites" (.str "")) = .ok sitesStr) :
    clean_row row = validateRow city region sitesStr := by
  unfold clean_row clean_row_body
  rw [hc, hr, hs]

theorem clean_row_body_ok {row : RawRow} {pr : Option CleanRecord × List String}
    (h : clean_row_body row = .ok pr) :
    ∃ s1 s2 s3 : String,
      rowGet row "City" (.str "") = .str s1 ∧
      rowGet row "Region" (.str "") = .str s2 ∧
      rowGet row "Number_of_Galamsay_Sites" (.str "") = .str s3 ∧
      pr = validateRow (pyStripStr s1) (pyStripStr s2) (pyStripStr s3) := by
  unfold clean_row_body at h
  cases h1 : rowGet row "City" (.str "") with
  | pynone => rw [h1] at h; exact absurd h (by simp [pyStrip])
  | int n => rw [h1] at h; exact absurd h (by simp [pyStrip])
  | str s1 =>
    rw [h1] at h
    cases h2 : rowGet row "Region" (.str "") with
    | pynone => rw [h2] at h; exact absurd h (by simp [pyStrip])
    | int n => rw [h2] at h; exact absurd h (by simp [pyStrip])
    | str s2 =>
      rw [h2] at h
      cases h3 : rowGet row "Number_of_Galamsay_Sites" (.str "") with
      | pynone => rw [h3] at h; exact absurd h (by simp [pyStrip])
      | int n => rw [h3] at h; exact absurd h (by simp [pyStrip])
      | str s3 =>
        rw [h3] at h
        simp only [pyStrip] at h
        exact ⟨s1, s2, s3, rfl, rfl, rfl, by injection h with h'; exact h'.symm⟩

theorem validateRow_some {city region sitesStr : String} {rec : CleanRecord}
    (h : (validateRow city region sitesStr).1 = some rec) :
    rec.city = city ∧ rec.region = region ∧ pyInt sitesStr = some rec.sites ∧
      0 ≤ rec.sites ∧ city ≠ "" ∧ pyLower city ≠ "unknown city" ∧
      region ≠ "" ∧ pyLower region ≠ "invalid region" := by
  unfold validateRow at h
  split at h
  · exact absurd h (by simp)
  · next hcity =>
    split at h
    · exact absurd h (by simp)
    · next hregion =>
      push_neg at hcity hregion
      split at h
      · exact absurd h (by simp)
      · next n hn =>
        split at h
        · exact absurd h (by simp)
        · next hneg =>
          split at h <;>
            · simp only [Option.some.injEq] at h
              subst h
              exact ⟨rfl, rfl, hn, not_lt.mp hneg, hcity.1, hcity.2, hregion.1, hregion.2⟩

theorem validateRow_none_logs (city region sitesStr : String) :
    (validateRow city region sitesStr).1 = none →
      (validateRow city region sitesStr).2 ≠ [] := by
  unfold validateRow
  split
  · intro _; simp
  · split
    · intro _; simp
    · split
      · intro _; simp
      · split
        · intro _; simp
        · split
          · intro h; exact absurd h (by simp)
          · intro h; exact absurd h (by simp)

theorem clean_row_some_invariant {row : RawRow} {rec : CleanRecord}
    (h : (clean_row row).1 = some rec) : CleanInvariant rec := by
  unfold clean_row at h
  cases hb : clean_row_body row with
  | error e => rw [hb] at h; exact absurd h (by simp)
  | ok pr =>
    rw [hb] at h
    obtain ⟨s1, s2, s3, -, -, -, hpr⟩ := clean_row_body_ok hb
    subst hpr
    obtain ⟨hcity, hregion, -, hns, hce, hcu, hre, hri⟩ := validateRow_some h
    refine ⟨?_, ?_, ?_, ?_, ?_, ?_, hns⟩
    · rw [hcity]; exact pyStripStr_idempotent s1
    · rw [hcity]; exact hce
    · rw [hcity]; exact hcu
    · rw [hregion]; exact pyStripStr_idempotent s2
    · rw [hregion]; exact hre
    · rw [hregion]; exact hri

/-! ### Grouping lemmas -/

theorem insertAdd_ne_nil (m : List (String × ℤ)) (k : String) (v : ℤ) :
    insertAdd m k v ≠ [] := by
  cases m with
  | nil => simp [insertAdd]
  | cons p rest =>
    obtain ⟨k', v'⟩ := p
    unfold insertAdd
    split <;> simp

theorem getTotal_cons (k' : String) (v' : ℤ) (rest : List (String × ℤ)) (r : String) :
    getTotal ((k', v') :: rest) r = if k' = r then v' else getTotal rest r := by
  unfold getTotal
  rw [List.find?_cons]
  by_cases h : k' = r
  · simp [h]
  · have hb : (k' == r) = false := by simp [h]
    rw [hb]
    simp [h, getTotal]

theorem getTotal_insertAdd (m : List (String × ℤ)) (k : String) (v : ℤ) (r : String) :
    getTotal (insertAdd m k v) r = getTotal m r + (if k = r then v else 0) := by
  induction m with
  | nil =>
    show getTotal [(k, v)] r = getTotal [] r + _
    rw [getTotal_cons]
    by_cases h : k = r <;> simp [h, getTotal]
  | cons p rest ih =>
    obtain ⟨k', v'⟩ := p
    unfold insertAdd
    by_cases hk : k' = k
    · subst hk
      rw [if_pos rfl, getTotal_cons, getTotal_cons]
      by_cases hr : k' = r
      · simp [hr]
      · simp [hr]
    · rw [if_neg hk, getTotal_cons, getTotal_cons, ih]
      by_cases hr : k' = r
      · have hkr : k ≠ r := fun he => hk (hr.trans he.symm)
        simp [hr, hkr]
      · simp [hr]

theorem keys_insertAdd (m : List (String × ℤ)) (k : String) (v : ℤ) :
    keys (insertAdd m k v) = if k ∈ keys m then keys m else keys m ++ [k] := by
  induction m with
  | nil => simp [insertAdd, keys]
  | cons p rest ih =>
    obtain ⟨k', v'⟩ := p
    show keys (if k' = k then (k', v' + v) :: rest else (k', v') :: insertAdd rest k v) = _
    by_cases hk : k' = k
    · subst hk
      rw [if_pos rfl]
      have hmem : k' ∈ keys ((k', v') :: rest) := by simp [keys]
      rw [if_pos hmem]
      rfl
    · rw [if_neg hk]
      have hstep : keys ((k', v') :: insertAdd rest k v) = k' :: keys (insertAdd rest k v) := rfl
      rw [hstep, ih]
      by_cases hmem : k ∈ keys rest
      · have hmem' : k ∈ keys ((k', v') :: rest) := by
          show k ∈ k' :: keys rest
          exact List.mem_cons_of_mem _ hmem
        rw [if_pos hmem, if_pos hmem']
        rfl
      · have hnot : k ∉ keys ((k', v') :: rest) := by
          show k ∉ k' :: keys rest
          simp only [List.mem_cons]
          rintro (h | h)
          · exact hk h.symm
          · exact hmem h
        rw [if_neg hmem, if_neg hnot]
        rfl

theorem mem_keys_insertAdd (m : List (String × ℤ)) (k : String) (v : ℤ) (r : String) :
    r ∈ keys (insertAdd m k v) ↔ r ∈ keys m ∨ r = k := by
  rw [keys_insertAdd]
  by_cases hmem : k ∈ keys m
  · rw [if_pos hmem]
    exact ⟨Or.inl, fun h => h.elim id (fun h' => h' ▸ hmem)⟩
  · rw [if_neg hmem]
    simp

theorem sum_insertAdd (m : List (String × ℤ)) (k : String) (v : ℤ) :
    ((insertAdd m k v).map Prod.snd).sum = (m.map Prod.snd).sum + v := by
  induction m with
  | nil => simp [insertAdd]
  | cons p rest ih =>
    obtain ⟨k', v'⟩ := p
    unfold insertAdd
    split
    · simp
      ring
    · simp [ih]
      ring

theorem getTotal_regionTotals_aux (records : List CleanRecord) :
    ∀ (m : List (String × ℤ)) (r : String),
      getTotal (records.foldl (fun m rec => insertAdd m rec.region rec.sites) m) r
        = getTotal m r + regionSum records r := by
  induction records with
  | nil =>
    intro m r
    simp [regionSum]
  | cons rec rs ih =>
    intro m r
    rw [List.foldl_cons, ih, getTotal_insertAdd]
    have hsum : regionSum (rec :: rs) r
        = (if rec.region = r then rec.sites else 0) + regionSum rs r := by
      unfold regionSum
      by_cases h : rec.region = r
      · simp [List.filter_cons, h]
      · simp [List.filter_cons, h]
    rw [hsum]
    ring

theorem getTotal_regionTotals (records : List CleanRecord) (r : String) :
    getTotal (regionTotals records) r = regionSum records r := by
  unfold regionTotals
  rw [getTotal_regionTotals_aux]
  simp [getTotal]

theorem mem_keys_regionTotals_aux (records : List CleanRecord) :
    ∀ (m : List (String × ℤ)) (r : String),
      r ∈ keys (records.foldl (fun m rec => insertAdd m rec.region rec.sites) m)
        ↔ r ∈ keys m ∨ ∃ rec ∈ records, rec.region = r := by
  induction records with
  | nil =>
    intro m r
    simp
  | cons rec rs ih =>
    intro m r
    rw [List.foldl_cons, ih, mem_keys_insertAdd]
    simp only [List.mem_cons]
    constructor
    · rintro ((h | h) | ⟨rec', hmem, hr⟩)
      · exact Or.inl h
      · exact Or.inr ⟨rec, Or.inl rfl, h.symm⟩
      · exact Or.inr ⟨rec', Or.inr hmem, hr⟩
    · rintro (h | ⟨rec', (rfl | hmem), hr⟩)
      · exact Or.inl (Or.inl h)
      · exact Or.inl (Or.inr hr.symm)
      · exact Or.inr ⟨rec', hmem, hr⟩

theorem mem_keys_regionTotals (records : List CleanRecord) (r : String) :
    r ∈ keys (regionTotals records) ↔ ∃ rec ∈ records, rec.region = r := by
  unfold regionTotals
  rw [mem_keys_regionTotals_aux]
  simp [keys]

theorem keys_regionTotals_aux (records : List CleanRecord) :
    ∀ m : List (String × ℤ),
      keys (records.foldl (fun m rec => insertAdd m rec.region rec.sites) m)
        = records.foldl
            (fun ks rec => if rec.region ∈ ks then ks else ks ++ [rec.region]) (keys m) := by
  induction records with
  | nil => intro m; rfl
  | cons rec rs ih =>
    intro m
    rw [List.foldl_cons, List.foldl_cons, ih, keys_insertAdd]

theorem keys_regionTotals (records : List CleanRecord) :
    keys (regionTotals records) = firstRegions records := by
  unfold regionTotals firstRegions
  rw [keys_regionTotals_aux]
  rfl

theorem sum_regionTotals_aux (records : List CleanRecord) :
    ∀ m : List (String × ℤ),
      (((records.foldl (fun m rec => insertAdd m rec.region rec.sites) m)).map Prod.snd).sum
        = (m.map Prod.snd).sum + (records.map (·.sites)).sum := by
  induction records with
  | nil => intro m; simp
  | cons rec rs ih =>
    intro m
    rw [List.foldl_cons, ih, sum_insertAdd]
    simp
    ring

theorem sum_regionTotals (records : List CleanRecord) :
    ((regionTotals records).map Prod.snd).sum = (records.map (·.sites)).sum := by
  unfold regionTotals
  rw [sum_regionTotals_aux]
  simp

theorem foldl_insertAdd_ne_nil (records : List CleanRecord) :
    ∀ m : List (String × ℤ), m ≠ [] →
      records.foldl (fun m rec => insertAdd m rec.region rec.sites) m ≠ [] := by
  induction records with
  | nil => intro m h; exact h
  | cons rec rs ih =>
    intro m _
    rw [List.foldl_cons]
    exact ih _ (insertAdd_ne_nil _ _ _)

theorem regionTotals_ne_nil {records : List CleanRecord} (h : records ≠ []) :
    regionTotals records ≠ [] := by
  cases records with
  | nil => exact absurd rfl h
  | cons rec rs =>
    unfold regionTotals
    rw [List.foldl_cons]
    exact foldl_insertAdd_ne_nil rs _ (insertAdd_ne_nil _ _ _)

/-! ### `pyMax` lemmas -/

theorem pyMax_foldl_spec (xs : List (String × ℤ)) :
    ∀ x : String × ℤ,
      xs.foldl pyMaxStep x ∈ x :: xs ∧
      (∀ p ∈ x :: xs, p.2 ≤ (xs.foldl pyMaxStep x).2) ∧
      (x :: xs).find? (fun p => decide ((xs.foldl pyMaxStep x).2 ≤ p.2))
        = some (xs.foldl pyMaxStep x) := by
  induction xs with
  | nil =>
    intro x
    refine ⟨by simp, by simp, ?_⟩
    rw [List.find?_cons]
    simp
  | cons y ys ih =>
    intro x
    rw [List.foldl_cons]
    by_cases hy : y.2 > x.2
    · have hstep : pyMaxStep x y = y := by simp [pyMaxStep, hy]
      rw [hstep]
      obtain ⟨hmem, hbd, hfind⟩ := ih y
      have hym : y.2 ≤ (ys.foldl pyMaxStep y).2 := hbd y (by simp)
      refine ⟨List.mem_cons_of_mem x hmem, ?_, ?_⟩
      · intro p hp
        rcases List.mem_cons.mp hp with rfl | hp'
        · omega
        · exact hbd p hp'
      · have hx : decide ((ys.foldl pyMaxStep y).2 ≤ x.2) = false := by
          simp only [decide_eq_false_iff_not, not_le]
          omega
        rw [List.find?_cons, hx]
        exact hfind
    · have hstep : pyMaxStep x y = x := by simp [pyMaxStep, hy]
      rw [hstep]
      obtain ⟨hmem, hbd, hfind⟩ := ih x
      have hxm : x.2 ≤ (ys.foldl pyMaxStep x).2 := hbd x (by simp)
      push_neg at hy
      refine ⟨?_, ?_, ?_⟩
      · rcases List.mem_cons.mp hmem with hmx | h'
        · rw [hmx]
          exact List.mem_cons_self _ _
        · exact List.mem_cons_of_mem x (List.mem_cons_of_mem y h')
      · intro p hp
        rcases List.mem_cons.mp hp with rfl | hp'
        · exact hxm
        · rcases List.mem_cons.mp hp' with rfl | hp''
          · omega
          · exact hbd p (List.mem_cons_of_mem x hp'')
      · by_cases hxtop : (ys.foldl pyMaxStep x).2 ≤ x.2
        · have hfx : (x :: ys).find? (fun p => decide ((ys.foldl pyMaxStep x).2 ≤ p.2))
              = some x := by
            rw [List.find?_cons]
            simp [hxtop]
          rw [hfx] at hfind
          injection hfind with hxm'
          rw [List.find?_cons, ← hxm']
          simp
        · have hfx : decide ((ys.foldl pyMaxStep x).2 ≤ x.2) = false := by
            simp only [decide_eq_false_iff_not]
            exact hxtop
          have hfy : decide ((ys.foldl pyMaxStep x).2 ≤ y.2) = false := by
            simp only [decide_eq_false_iff_not, not_le]
            push_neg at hxtop
            omega
          rw [List.find?_cons, hfx] at hfind
          rw [List.find?_cons, hfx, List.find?_cons, hfy]
          exact hfind

theorem pyMax_spec {m : List (String × ℤ)} (h : m ≠ []) :
    ∃ top, pyMax m = some top ∧ top ∈ m ∧ (∀ p ∈ m, p.2 ≤ top.2) ∧
      m.find? (fun p => decide (top.2 ≤ p.2)) = some top := by
  cases m with
  | nil => exact absurd rfl h
  | cons x xs =>
    obtain ⟨hmem, hbd, hfind⟩ := pyMax_foldl_spec xs x
    exact ⟨_, rfl, hmem, hbd, hfind⟩

/-! ### `clean_data` and `analyze` structural lemmas -/

theorem clean_data_foldl (raw : List RawRow) :
    ∀ acc : List CleanRecord,
      raw.foldl
          (fun acc row =>
            match (clean_row row).1 with
            | some rec => acc ++ [rec]
            | none => acc)
          acc
        = acc ++ raw.filterMap (fun row => (clean_row row).1) := by
  induction raw with
  | nil => intro acc; simp
  | cons row rows ih =>
    intro acc
    rw [List.foldl_cons]
    cases h : (clean_row row).1 with
    | none =>
      rw [List.filterMap_cons, h]
      exact ih acc
    | some rec =>
      rw [List.filterMap_cons, h]
      rw [ih]
      simp

theorem clean_data_eq_filterMap (raw : List RawRow) :
    clean_data raw = raw.filterMap (fun row => (clean_row row).1) := by
  unfold clean_data
  rw [clean_data_foldl]
  simp

theorem analyze_some_of_ne_nil {cleaned : List CleanRecord} (h : cleaned ≠ []) :
    ∃ res, analyze cleaned = some res := by
  obtain ⟨top, htop, -, -, -⟩ := pyMax_spec (regionTotals_ne_nil h)
  simp only [analyze, if_neg h]
  rw [htop]
  exact ⟨_, rfl⟩

theorem analyze_none_iff (cleaned : List CleanRecord) :
    analyze cleaned = none ↔ cleaned = [] := by
  constructor
  · intro h
    by_contra hne
    obtain ⟨res, hres⟩ := analyze_some_of_ne_nil hne
    rw [h] at hres
    cases hres
  · intro h
    subst h
    rfl

theorem analyze_some_spec {cleaned : List CleanRecord} {res : AnalysisResult}
    (h : analyze cleaned = some res) :
    cleaned ≠ [] ∧
    res.cleaned_data = cleaned ∧
    res.total_sites = (cleaned.map (·.sites)).sum ∧
    res.region_totals = regionTotals cleaned ∧
    pyMax (regionTotals cleaned) = some (res.region_with_highest, res.highest_count) ∧
    res.avg_per_region
      = (((cleaned.map (·.sites)).sum : ℤ) : ℚ) / ((regionTotals cleaned).length : ℚ) ∧
    res.cities_exceeding_threshold = cleaned.filter (fun r => r.sites > 10) := by
  have hne : cleaned ≠ [] := by
    intro he
    subst he
    cases h
  have hrt : regionTotals cleaned ≠ [] := regionTotals_ne_nil hne
  simp only [analyze, if_neg hne] at h
  cases htop : pyMax (regionTotals cleaned) with
  | none =>
    rw [htop] at h
    cases h
  | some top =>
    rw [htop] at h
    injection h with h'
    subst h'
    refine ⟨hne, rfl, rfl, rfl, rfl, ?_, rfl⟩
    show (if regionTotals cleaned = [] then 0 else _) = _
    rw [if_neg hrt]

/-! ### Claims -/

/-- C1 (counterexample): on `c1_records` the `cities_exceeding_threshold`
value returned by `analyze` is the threshold filter in input order `[11, 25]`
and is not sorted descending by site count, refuting the claim that the
aggregation result is sorted. -/
theorem exceeding_threshold_not_sorted :
    analyze c1_records = some c1_result ∧
    c1_result.cities_exceeding_threshold.map (·.sites) = [11, 25] ∧
    ¬ List.Sorted (· ≥ ·) (c1_result.cities_exceeding_threshold.map (·.sites)) := by
  refine ⟨rfl, rfl, ?_⟩
  show ¬ List.Sorted (· ≥ ·) ([11, 25] : List ℤ)
  intro h
  have h11 : (11 : ℤ) ≥ 25 := List.rel_of_sorted_cons h 25 (by simp)
  omega

/-- C1 (amended): for every non-empty sequence of clean records, the
`cities_exceeding_threshold` component of the `analyze` result contains
exactly the records with `siteCount > 10`, in the original input order (no
sort is applied inside `analyze`; descending order appears only in `main`'s
display). -/
theorem exceeding_threshold_filter_input_order :
    ∀ (cleaned : List CleanRecord) (res : AnalysisResult),
      analyze cleaned = some res →
        res.cities_exceeding_threshold = cleaned.filter (fun r => r.sites > 10) ∧
        res.cities_exceeding_threshold.Sublist cleaned ∧
        (∀ r ∈ res.cities_exceeding_threshold, 10 < r.sites) ∧
        (∀ r ∈ cleaned, 10 < r.sites → r ∈ res.cities_exceeding_threshold) := by
  intro cleaned res h
  obtain ⟨-, -, -, -, -, -, hex⟩ := analyze_some_spec h
  refine ⟨hex, ?_, ?_, ?_⟩
  · rw [hex]
    exact List.filter_sublist cleaned
  · intro r hr
    rw [hex] at hr
    simpa using List.of_mem_filter hr
  · intro r hr hgt
    rw [hex]
    exact List.mem_filter.mpr ⟨hr, by simpa using hgt⟩

/-- C1 (witness): the amended claim instantiated on `c1_records`. -/
theorem exceeding_threshold_filter_input_order_witness :
    analyze c1_records = some c1_result ∧
    c1_result.cities_exceeding_threshold = c1_records.filter (fun r => r.sites > 10) :=
  ⟨rfl, (exceeding_threshold_filter_input_order c1_records c1_result rfl).1⟩

/-- C2: `analyze` fails (returns the falsy empty result, modelled as `none`)
exactly when the cleaned record sequence is empty, and in that case `main`
does not reach persistence: no run row is produced. -/
theorem aggregation_empty_input :
    analyze ([] : List CleanRecord) = none ∧
    (∀ cleaned : List CleanRecord, analyze cleaned = none ↔ cleaned = []) ∧
    (∀ raw : List RawRow, clean_data raw = [] → main_flow raw = none) := by
  refine ⟨rfl, analyze_none_iff, ?_⟩
  intro raw h
  unfold main_flow
  by_cases hraw : raw = []
  · rw [if_pos hraw]
  · rw [if_neg hraw, h]
    rfl

/-- C2 (witness): a raw input whose only row is rejected yields an empty
cleaned set and no persisted run. -/
theorem aggregation_empty_input_witness :
    clean_data c2_raw = [] ∧ main_flow c2_raw = none :=
  ⟨rfl, aggregation_empty_input.2.2 c2_raw rfl⟩

/-- C3: the `topRegion` pair of the `analyze` result is an entry of
`region_totals` whose total is the maximum over all entries; the entry chosen
is the first one in the mapping attaining the maximum, and the mapping's key
order is exactly the order in which regions are first encountered when
folding the input, so ties resolve to the region first inserted into the
grouping. -/
theorem top_region_max_first_inserted :
    ∀ (cleaned : List CleanRecord) (res : AnalysisResult),
      analyze cleaned = some res →
        (res.region_with_highest, res.highest_count) ∈ res.region_totals ∧
        (∀ p ∈ res.region_totals, p.2 ≤ res.highest_count) ∧
        res.region_totals.find? (fun p => decide (res.highest_count ≤ p.2))
          = some (res.region_with_highest, res.highest_count) ∧
        keys res.region_totals = firstRegions cleaned := by
  intro cleaned res h
  obtain ⟨hne, -, -, hrt, htop, -, -⟩ := analyze_some_spec h
  obtain ⟨top, htop', hmem, hbd, hfind⟩ := pyMax_spec (regionTotals_ne_nil hne)
  have hpair : top = (res.region_with_highest, res.highest_count) :=
    Option.some.inj (htop'.symm.trans htop)
  subst hpair
  refine ⟨?_, ?_, ?_, ?_⟩
  · rw [hrt]
    exact hmem
  · intro p hp
    rw [hrt] at hp
    exact hbd p hp
  · rw [hrt]
    exact hfind
  · rw [hrt]
    exact keys_regionTotals cleaned

/-- C3 (witness): on a tie at total 5 between `"Ashanti"` (inserted first)
and `"Greater Accra"`, the chosen top region is `"Ashanti"`. -/
theorem top_region_max_first_inserted_witness :
    analyze c3_records = some c3_result ∧
    c3_result.region_with_highest = "Ashanti" ∧
    c3_result.region_totals = [("Ashanti", 5), ("Greater Accra", 5)] ∧
    (c3_result.region_with_highest, c3_result.highest_count) ∈ c3_result.region_totals :=
  ⟨rfl, rfl, rfl, (top_region_max_first_inserted c3_records c3_result rfl).1⟩

/-- C4: region grouping is case-sensitive: the total stored under any region
string sums exactly the records with that exact spelling, and two
case-variant spellings both occurring in the input give two distinct keys of
`region_totals`. -/
theorem region_grouping_case_sensitive :
    ∀ (records : List CleanRecord) (r1 r2 : String),
      r1 ≠ r2 → pyLower r1 = pyLower r2 →
        getTotal (regionTotals records) r1 = regionSum records r1 ∧
        getTotal (regionTotals records) r2 = regionSum records r2 ∧
        ((∃ rec ∈ records, rec.region = r1) → (∃ rec ∈ records, rec.region = r2) →
          r1 ∈ keys (regionTotals records) ∧ r2 ∈ keys (regionTotals records)) := by
  intro records r1 r2 _ _
  refine ⟨getTotal_regionTotals records r1, getTotal_regionTotals records r2, ?_⟩
  intro h1 h2
  exact ⟨(mem_keys_regionTotals records r1).mpr h1, (mem_keys_regionTotals records r2).mpr h2⟩

/-- C4 (witness): `"Ashanti"` and `"ASHANTI"` each get their own total. -/
theorem region_grouping_case_sensitive_witness :
    getTotal (regionTotals c4_records) "Ashanti" = 8 ∧
    getTotal (regionTotals c4_records) "ASHANTI" = 2 ∧
    getTotal (regionTotals c4_records) "Ashanti" = regionSum c4_records "Ashanti" :=
  ⟨by decide, by decide,
    (region_grouping_case_sensitive c4_records "Ashanti" "ASHANTI"
      (by decide) (by decide)).1⟩

/-- C5: for every non-empty sequence of clean records, `total_sites` of the
`analyze` result equals the sum of the values of `region_totals`: the
grouping counts every record's site count exactly once. -/
theorem total_sites_eq_sum_region_totals :
    ∀ (cleaned : List CleanRecord) (res : AnalysisResult),
      analyze cleaned = some res →
        res.total_sites = (res.region_totals.map Prod.snd).sum := by
  intro cleaned res h
  obtain ⟨-, -, htot, hrt, -, -, -⟩ := analyze_some_spec h
  rw [htot, hrt, sum_regionTotals]

/-- C5 (witness): the sum identity on the worked scenario. -/
theorem total_sites_eq_sum_region_totals_witness :
    analyze demo_records = some demo_result ∧
    demo_result.total_sites = (demo_result.region_totals.map Prod.snd).sum :=
  ⟨rfl, total_sites_eq_sum_region_totals demo_records demo_result rfl⟩

/-- C6: for every non-empty sequence of clean records, `avg_per_region` of
the `analyze` result equals `total_sites` divided by the number of distinct
region keys; the `0`-for-empty branch is vacuous there because
`region_totals` is never empty for non-empty input. -/
theorem average_per_region_formula :
    ∀ (cleaned : List CleanRecord) (res : AnalysisResult),
      analyze cleaned = some res →
        (res.region_totals ≠ [] ∧
          res.avg_per_region
            = (res.total_sites : ℚ) / (res.region_totals.length : ℚ)) ∧
        (res.region_totals = [] → res.avg_per_region = 0) := by
  intro cleaned res h
  obtain ⟨hne, -, htot, hrt, -, havg, -⟩ := analyze_some_spec h
  have hrtne : res.region_totals ≠ [] := by
    rw [hrt]
    exact regionTotals_ne_nil hne
  refine ⟨⟨hrtne, ?_⟩, fun he => absurd he hrtne⟩
  rw [havg, htot, hrt]

/-- C6 (witness): the average formula on the worked scenario. -/
theorem average_per_region_formula_witness :
    analyze demo_records = some demo_result ∧
    demo_result.avg_per_region
      = (demo_result.total_sites : ℚ) / (demo_result.region_totals.length : ℚ) :=
  ⟨rfl, ((average_per_region_formula demo_records demo_result rfl).1).2⟩

/-- C7: for a raw row whose city and region pass validation and whose
site-count field parses as `n`: a negative `n` is rejected with the negative
count error logged, `n = 0` is accepted, and `n > 200` is accepted with an
outlier warning appended to the log. -/
theorem clean_row_site_count_policy :
    ∀ (row : RawRow) (city region sitesStr : String) (n : ℤ),
      pyStrip (rowGet row "City" (.str "")) = .ok city →
      pyStrip (rowGet row "Region" (.str "")) = .ok region →
      pyStrip (rowGet row "Number_of_Galamsay_Sites" (.str "")) = .ok sitesStr →
      ¬(city = "" ∨ pyLower city = "unknown city") →
      ¬(region = "" ∨ pyLower region = "invalid region") →
      pyInt sitesStr = some n →
        (n < 0 → clean_row row
            = (none, ["Negative sites count for " ++ city ++ ": " ++ toString n])) ∧
        (n = 0 → (clean_row row).1 = some ⟨city, region, 0⟩) ∧
        (200 < n → (clean_row row).1 = some ⟨city, region, n⟩ ∧
          ("WARNING: Possible outlier for " ++ city ++ ": " ++ toString n ++ " sites")
            ∈ (clean_row row).2) := by
  intro row city region sitesStr n hc hr hs hcv hrv hn
  rw [clean_row_of_strips hc hr hs]
  unfold validateRow
  rw [if_neg hcv, if_neg hrv]
  simp only [hn]
  refine ⟨?_, ?_, ?_⟩
  · intro hneg
    rw [if_pos hneg]
  · intro h0
    subst h0
    rw [if_neg (by omega), if_neg (by omega)]
  · intro hout
    rw [if_neg (by omega), if_pos hout]
    exact ⟨rfl, by simp⟩

/-- C7 (witness): the three site-count regimes on concrete rows. -/
theorem clean_row_site_count_policy_witness :
    (clean_row c7_row_neg).1 = none ∧
    (clean_row c7_row_neg).2 ≠ [] ∧
    (clean_row c7_row_zero).1 = some ⟨"Accra", "Greater Accra", 0⟩ ∧
    (clean_row c7_row_outlier).1 = some ⟨"Accra", "Greater Accra", 1000⟩ ∧
    (clean_row c7_row_outlier).2 ≠ [] := by
  have hneg := (clean_row_site_count_policy c7_row_neg "Accra" "Greater Accra" "-3" (-3)
    rfl rfl rfl (by decide) (by decide) rfl).1 (by decide)
  have hzero := (clean_row_site_count_policy c7_row_zero "Accra" "Greater Accra" "0" 0
    rfl rfl rfl (by decide) (by decide) rfl).2.1 rfl
  have hout := (clean_row_site_count_policy c7_row_outlier "Accra" "Greater Accra" "1000" 1000
    rfl rfl rfl (by decide) (by decide) rfl).2.2 (by decide)
  refine ⟨?_, ?_, hzero, hout.1, ?_⟩
  · rw [hneg]
  · rw [hneg]
    simp
  · intro hnil
    rw [hnil] at hout
    exact absurd hout.2 (by simp)

/-- C8: the cleaned set is exactly the accepted rows of the input, in input
order, and every record in it satisfies the clean-record invariant. -/
theorem clean_data_subsequence_invariant :
    ∀ raw : List RawRow,
      clean_data raw = raw.filterMap (fun row => (clean_row row).1) ∧
      ∀ rec ∈ clean_data raw, CleanInvariant rec := by
  intro raw
  refine ⟨clean_data_eq_filterMap raw, ?_⟩
  intro rec hrec
  rw [clean_data_eq_filterMap raw] at hrec
  obtain ⟨row, -, hrow⟩ := List.mem_filterMap.mp hrec
  exact clean_row_some_invariant hrow

/-- C8 (witness): the invariant holds for a record cleaned from the worked
scenario's raw rows. -/
theorem clean_data_subsequence_invariant_witness :
    clean_data demo_raw = demo_raw.filterMap (fun row => (clean_row row).1) ∧
    CleanInvariant ⟨"Kumasi", "Ashanti", 25⟩ :=
  ⟨(clean_data_subsequence_invariant demo_raw).1,
    (clean_data_subsequence_invariant demo_raw).2 ⟨"Kumasi", "Ashanti", 25⟩ (by decide)⟩

/-- C9: `clean_row` catches any exception escaping its body, logging it and
rejecting the row, and every rejection leaves at least one log entry; it
therefore never raises. -/
theorem clean_row_total_catches :
    ∀ row : RawRow,
      (∀ e, clean_row_body row = .error e →
        clean_row row = (none, ["Error cleaning row: " ++ e])) ∧
      ((clean_row row).1 = none → (clean_row row).2 ≠ []) := by
  intro row
  constructor
  · intro e he
    unfold clean_row
    rw [he]
  · intro hnone
    unfold clean_row at hnone ⊢
    cases hb : clean_row_body row with
    | error e => simp
    | ok pr =>
      rw [hb] at hnone
      obtain ⟨s1, s2, s3, -, -, -, hpr⟩ := clean_row_body_ok hb
      subst hpr
      exact validateRow_none_logs _ _ _ hnone

/-- C9 (witness): a row whose `City` value is `None` makes the body raise;
`clean_row` returns a rejection with the exception logged. -/
theorem clean_row_total_catches_witness :
    clean_row c9_row
      = (none, ["Error cleaning row: AttributeError: NoneType has no strip"]) ∧
    (clean_row c9_row).2 ≠ [] :=
  ⟨(clean_row_total_catches c9_row).1 _ rfl,
    (clean_row_total_catches c9_row).2 rfl⟩

/-- C10: `save_analysis_to_database` stores the average rounded to two
decimal places; on `c10_records` the in-memory result keeps the unrounded
`10/3` while the stored value `3.33` differs from it. -/
theorem persisted_average_rounded :
    (∀ res : AnalysisResult,
      (save_analysis_to_database res).average_sites_per_region
        = pyRound2 res.avg_per_region) ∧
    analyze c10_records = some c10_result ∧
    c10_result.avg_per_region = (10 : ℚ) / 3 ∧
    (save_analysis_to_database c10_result).average_sites_per_region
      ≠ c10_result.avg_per_region := by
  have havg : c10_result.avg_per_region = (10 : ℚ) / 3 := by
    show ((10 : ℤ) : ℚ) / ((3 : ℕ) : ℚ) = (10 : ℚ) / 3
    norm_num
  refine ⟨fun res => rfl, rfl, havg, ?_⟩
  show pyRound2 c10_result.avg_per_region ≠ c10_result.avg_per_region
  rw [havg]
  have hx : (10 : ℚ) / 3 * 100 = 1000 / 3 := by norm_num
  have hfl : Rat.floor ((1000 : ℚ) / 3) = 333 := by
    show ⌊((1000 : ℚ) / 3)⌋ = 333
    have h : ((1000 : ℚ) / 3) = ((1000 : ℤ) : ℚ) / ((3 : ℕ) : ℚ) := by norm_num
    rw [h, Rat.floor_intCast_div_natCast]
    rfl
  have hrnd : roundHalfEven ((1000 : ℚ) / 3) = 333 := by
    unfold roundHalfEven
    rw [hfl]
    rw [if_pos (by norm_num)]
  have hround : pyRound2 ((10 : ℚ) / 3) = ((333 : ℤ) : ℚ) / 100 := by
    unfold pyRound2
    rw [hx, hrnd]
  rw [hround]
  norm_num

end Galamsay
